import Mathlib

/-!
Verification of gramit's `src/transform.rs` against its specification.

The transform module builds 3D homogeneous transformation and projection
matrices over a small linear-algebra primitive library (3- and 4-component
vectors, a column-major 4x4 matrix, and an angle type).  The primitive
library is not part of `src/transform.rs`; it is modelled here from the
specification (sections 3 and 6), using real numbers for the `f32` scalars.
The matrix is column-major: `m[i][j]` denotes component `j` of column `i`,
`Mat4::new` receives the four columns, and points are transformed by
left-multiplication (`result = M * point`, where `M * point` is the linear
combination of the columns of `M` weighted by the components of `point`).
-/

noncomputable section

/-- Modelled from the spec: the external 3-component vector value type
(spec sections 3 and 6). -/
@[ext]
structure Vec3 where
  x : ℝ
  y : ℝ
  z : ℝ

/-- Modelled from the spec: the external 4-component vector value type
(spec sections 3 and 6). -/
@[ext]
structure Vec4 where
  x : ℝ
  y : ℝ
  z : ℝ
  w : ℝ

/-- Modelled from the spec: the external 4x4 matrix value type, stored as
four columns (spec sections 3 and 6; `transform.rs` consistently indexes
`mat[column][row]`, e.g. the translation components are written at
`mat[3][0..2]` in `look_at`). -/
@[ext]
structure Mat4 where
  c0 : Vec4
  c1 : Vec4
  c2 : Vec4
  c3 : Vec4

/-- Modelled from the spec: scalar multiplication of a 3-vector. -/
def Vec3.smul (s : ℝ) (v : Vec3) : Vec3 := ⟨s * v.x, s * v.y, s * v.z⟩

/-- Modelled from the spec: componentwise subtraction of 3-vectors. -/
def Vec3.sub (a b : Vec3) : Vec3 := ⟨a.x - b.x, a.y - b.y, a.z - b.z⟩

/-- Modelled from the spec: dot product of 3-vectors. -/
def Vec3.dot (a b : Vec3) : ℝ := a.x * b.x + a.y * b.y + a.z * b.z

/-- Modelled from the spec: cross product of 3-vectors. -/
def Vec3.cross (a b : Vec3) : Vec3 :=
  ⟨a.y * b.z - a.z * b.y, a.z * b.x - a.x * b.z, a.x * b.y - a.y * b.x⟩

/-- Modelled from the spec: componentwise negation of a 3-vector. -/
def Vec3.neg (v : Vec3) : Vec3 := ⟨-v.x, -v.y, -v.z⟩

/-- Modelled from the spec: normalization of a 3-vector to unit length
(`Vec3::unit`). -/
def Vec3.unit (v : Vec3) : Vec3 := Vec3.smul (1 / Real.sqrt (Vec3.dot v v)) v

/-- Modelled from the spec: extension of a 3-vector with a given fourth
coordinate (`Vec3::extend`). -/
def Vec3.extend (v : Vec3) (w : ℝ) : Vec4 := ⟨v.x, v.y, v.z, w⟩

/-- Modelled from the spec: the homogeneous point of a 3-vector, the
extension with fourth coordinate 1 (`Vec3::homogeneous`). -/
def Vec3.homogeneous (v : Vec3) : Vec4 := v.extend 1

/-- Modelled from the spec: the y axis unit vector (`Vec3::y()`). -/
def Vec3.yAxis : Vec3 := ⟨0, 1, 0⟩

/-- Modelled from the spec: componentwise addition of 4-vectors. -/
def Vec4.add (a b : Vec4) : Vec4 := ⟨a.x + b.x, a.y + b.y, a.z + b.z, a.w + b.w⟩

/-- Modelled from the spec: scalar multiplication of a 4-vector. -/
def Vec4.smul (s : ℝ) (v : Vec4) : Vec4 := ⟨s * v.x, s * v.y, s * v.z, s * v.w⟩

/-- Modelled from the spec: componentwise negation of a 4-vector. -/
def Vec4.neg (v : Vec4) : Vec4 := ⟨-v.x, -v.y, -v.z, -v.w⟩

/-- Modelled from the spec: the w axis unit vector (`Vec4::w()`). -/
def Vec4.wUnit : Vec4 := ⟨0, 0, 0, 1⟩

/-- Modelled from the spec: indexed component access of a 4-vector
(`v[j]`). -/
def Vec4.comp (v : Vec4) (j : Nat) : ℝ :=
  if j = 0 then v.x else if j = 1 then v.y else if j = 2 then v.z else
  if j = 3 then v.w else 0

/-- Modelled from the spec: indexed component mutation of a 4-vector
(`v[j] = s`). -/
def Vec4.setComp (v : Vec4) (j : Nat) (s : ℝ) : Vec4 :=
  if j = 0 then ⟨s, v.y, v.z, v.w⟩ else if j = 1 then ⟨v.x, s, v.z, v.w⟩ else
  if j = 2 then ⟨v.x, v.y, s, v.w⟩ else if j = 3 then ⟨v.x, v.y, v.z, s⟩ else v

/-- Modelled from the spec: dropping a 4-vector to its first three
components. -/
def Vec4.xyz (v : Vec4) : Vec3 := ⟨v.x, v.y, v.z⟩

/-- Modelled from the spec: homogenization of a 4-vector, dividing the
spatial components by the w component (`Vec4::homogenize`). -/
def Vec4.homogenize (v : Vec4) : Vec3 := ⟨v.x / v.w, v.y / v.w, v.z / v.w⟩

/-- Modelled from the spec: the matrix constructor from four columns
(`Mat4::new`). -/
def Mat4.new (a b c d : Vec4) : Mat4 := ⟨a, b, c, d⟩

/-- Modelled from the spec: the identity matrix (`Mat4::identity`). -/
def Mat4.identity : Mat4 :=
  ⟨⟨1, 0, 0, 0⟩, ⟨0, 1, 0, 0⟩, ⟨0, 0, 1, 0⟩, ⟨0, 0, 0, 1⟩⟩

/-- Modelled from the spec: the all-zero matrix (`Mat4::zeros`). -/
def Mat4.zeros : Mat4 :=
  ⟨⟨0, 0, 0, 0⟩, ⟨0, 0, 0, 0⟩, ⟨0, 0, 0, 0⟩, ⟨0, 0, 0, 0⟩⟩

/-- Modelled from the spec: indexed column access (`m[i]`). -/
def Mat4.col (m : Mat4) (i : Nat) : Vec4 :=
  if i = 0 then m.c0 else if i = 1 then m.c1 else if i = 2 then m.c2 else
  if i = 3 then m.c3 else ⟨0, 0, 0, 0⟩

/-- Modelled from the spec: whole-column replacement (`Mat4::set_col`). -/
def Mat4.set_col (m : Mat4) (i : Nat) (v : Vec4) : Mat4 :=
  if i = 0 then ⟨v, m.c1, m.c2, m.c3⟩ else if i = 1 then ⟨m.c0, v, m.c2, m.c3⟩ else
  if i = 2 then ⟨m.c0, m.c1, v, m.c3⟩ else if i = 3 then ⟨m.c0, m.c1, m.c2, v⟩ else m

/-- Modelled from the spec: whole-row replacement (`Mat4::set_row`); row `j`
consists of component `j` of every column. -/
def Mat4.set_row (m : Mat4) (j : Nat) (v : Vec4) : Mat4 :=
  ⟨m.c0.setComp j v.x, m.c1.setComp j v.y, m.c2.setComp j v.z, m.c3.setComp j v.w⟩

/-- Modelled from the spec: indexed element mutation (`m[i][j] = s`, column
`i`, row `j`). -/
def Mat4.setElem (m : Mat4) (i j : Nat) (s : ℝ) : Mat4 :=
  m.set_col i ((m.col i).setComp j s)

/-- Modelled from the spec: row extraction; row `j` consists of component
`j` of every column. -/
def Mat4.row (m : Mat4) (j : Nat) : Vec4 :=
  ⟨m.c0.comp j, m.c1.comp j, m.c2.comp j, m.c3.comp j⟩

/-- Modelled from the spec: matrix-vector multiplication, the linear
combination of the columns weighted by the vector components. -/
def Mat4.mulVec (m : Mat4) (v : Vec4) : Vec4 :=
  Vec4.add (Vec4.add (Vec4.add (Vec4.smul v.x m.c0) (Vec4.smul v.y m.c1))
    (Vec4.smul v.z m.c2)) (Vec4.smul v.w m.c3)

/-- Modelled from the spec: matrix-matrix multiplication; each column of
`a * b` is `a` applied to the corresponding column of `b`. -/
def Mat4.mul (a b : Mat4) : Mat4 :=
  ⟨a.mulVec b.c0, a.mulVec b.c1, a.mulVec b.c2, a.mulVec b.c3⟩

/-- Modelled from the spec: the external angle value type, as radians. -/
abbrev Angle : Type := ℝ

/-- Modelled from the spec: conversion from degrees
(`Angle::from_degrees`). -/
def Angle.from_degrees (d : ℝ) : Angle := d * Real.pi / 180

/-- Modelled from the spec: cosine of an angle. -/
def Angle.cos (a : Angle) : ℝ := Real.cos a

/-- Modelled from the spec: sine of an angle. -/
def Angle.sin (a : Angle) : ℝ := Real.sin a

/-- Modelled from the spec: tangent of an angle. -/
def Angle.tan (a : Angle) : ℝ := Real.tan a

namespace gramit

/-- Translation matrix (`transform.rs` lines 130-135). -/
def translate (offset : Vec3) : Mat4 :=
  let offset4 := offset.extend 1
  let mat := Mat4.identity
  mat.set_col 3 offset4

/-- Scale matrix (`transform.rs` lines 141-147). -/
def scale (factor : Vec3) : Mat4 :=
  (((Mat4.identity).setElem 0 0 factor.x).setElem 1 1 factor.y).setElem 2 2 factor.z

/-- Shear fixing the yz plane (`transform.rs` lines 151-156). -/
def shear_x (y_amount z_amount : ℝ) : Mat4 :=
  ((Mat4.identity).setElem 0 1 y_amount).setElem 0 2 z_amount

/-- Shear fixing the xz plane (`transform.rs` lines 160-165). -/
def shear_y (x_amount z_amount : ℝ) : Mat4 :=
  ((Mat4.identity).setElem 1 0 x_amount).setElem 1 2 z_amount

/-- Shear fixing the xy plane (`transform.rs` lines 169-174). -/
def shear_z (x_amount y_amount : ℝ) : Mat4 :=
  ((Mat4.identity).setElem 2 0 x_amount).setElem 2 1 y_amount

/-- Rotation about an axis by an angle via a unit quaternion
(`transform.rs` lines 178-199). -/
def rotate (axis : Vec3) (angle : Angle) : Mat4 :=
  let half := angle / 2
  let w := Angle.cos half
  let v := Vec3.smul (Angle.sin half) axis.unit
  let xy := v.x * v.y
  let xz := v.x * v.z
  let xw := v.x * w
  let x2 := v.x * v.x
  let yz := v.y * v.z
  let yw := v.y * w
  let y2 := v.y * v.y
  let zw := v.z * w
  let z2 := v.z * v.z
  Mat4.new
    ⟨1 - 2 * (y2 + z2), 2 * (xy + zw), 2 * (xz - yw), 0⟩
    ⟨2 * (xy - zw), 1 - 2 * (x2 + z2), 2 * (yz + xw), 0⟩
    ⟨2 * (xz + yw), 2 * (yz - xw), 1 - 2 * (x2 + y2), 0⟩
    Vec4.wUnit

/-- Look-at view matrix (`transform.rs` lines 212-227). -/
def look_at (eye center up : Vec3) : Mat4 :=
  let facing := (Vec3.sub center eye).unit
  let horiz := facing.cross up.unit
  let cam_up := horiz.cross facing
  let mat := Mat4.identity
  let mat := mat.set_row 0 (horiz.extend 0)
  let mat := mat.set_row 1 (cam_up.extend 0)
  let mat := mat.set_row 2 (Vec4.neg (facing.extend 0))
  let mat := mat.setElem 3 0 (-(Vec3.dot eye horiz))
  let mat := mat.setElem 3 1 (-(Vec3.dot eye cam_up))
  let mat := mat.setElem 3 2 (Vec3.dot eye facing)
  mat

/-- Orthographic normalization matrix (`transform.rs` lines 238-250). -/
def ortho (left right bottom top near far : ℝ) : Mat4 :=
  let mat := Mat4.identity
  let mat := mat.setElem 0 0 (2 / (right - left))
  let mat := mat.setElem 1 1 (2 / (top - bottom))
  let mat := mat.setElem 2 2 (-2 / (far - near))
  let mat := mat.setElem 3 0 (-(right + left) / (right - left))
  let mat := mat.setElem 3 1 (-(top + bottom) / (top - bottom))
  let mat := mat.setElem 3 2 (-(far + near) / (far - near))
  mat

/-- Frustum normalization matrix (`transform.rs` lines 261-275). -/
def frustum (left right bottom top near far : ℝ) : Mat4 :=
  let mat := Mat4.zeros
  let mat := mat.setElem 0 0 ((2 * near) / (right - left))
  let mat := mat.setElem 1 1 ((2 * near) / (top - bottom))
  let mat := mat.setElem 2 0 ((right + left) / (right - left))
  let mat := mat.setElem 2 1 ((top + bottom) / (top - bottom))
  let mat := mat.setElem 2 2 (-(far + near) / (far - near))
  let mat := mat.setElem 2 3 (-1)
  let mat := mat.setElem 3 2 (-(2 * far * near) / (far - near))
  mat

/-- Perspective normalization matrix (`transform.rs` lines 286-298). -/
def perspective (fovy : Angle) (aspect_xy near far : ℝ) : Mat4 :=
  let tan_half_fov := Angle.tan (fovy / 2)
  let mat := Mat4.zeros
  let mat := mat.setElem 0 0 (1 / (aspect_xy * tan_half_fov))
  let mat := mat.setElem 1 1 (1 / tan_half_fov)
  let mat := mat.setElem 2 2 (-(far + near) / (far - near))
  let mat := mat.setElem 2 3 (-1)
  let mat := mat.setElem 3 2 (-(2 * far * near) / (far - near))
  mat

end gramit

/-- The transform builder (`transform.rs` lines 39-43): wraps the
accumulated matrix. -/
structure Transform where
  mat : Mat4

/-- Transform constructor (`transform.rs` lines 51-55): the identity. -/
def Transform.new : Transform := ⟨Mat4.identity⟩

/-- Builder translation (`transform.rs` lines 59-63). -/
def Transform.translate (self : Transform) (offset : Vec3) : Transform :=
  ⟨Mat4.mul (gramit.translate offset) self.mat⟩

/-- Builder scale (`transform.rs` lines 70-74). -/
def Transform.scale (self : Transform) (factor : Vec3) : Transform :=
  ⟨Mat4.mul (gramit.scale factor) self.mat⟩

/-- Builder shear fixing the yz plane (`transform.rs` lines 80-84). -/
def Transform.shear_x (self : Transform) (y_amount z_amount : ℝ) : Transform :=
  ⟨Mat4.mul (gramit.shear_x y_amount z_amount) self.mat⟩

/-- Builder shear fixing the xz plane (`transform.rs` lines 90-94). -/
def Transform.shear_y (self : Transform) (x_amount z_amount : ℝ) : Transform :=
  ⟨Mat4.mul (gramit.shear_y x_amount z_amount) self.mat⟩

/-- Builder shear fixing the xy plane (`transform.rs` lines 100-104). -/
def Transform.shear_z (self : Transform) (x_amount y_amount : ℝ) : Transform :=
  ⟨Mat4.mul (gramit.shear_z x_amount y_amount) self.mat⟩

/-- Builder rotation (`transform.rs` lines 108-112). -/
def Transform.rotate (self : Transform) (axis : Vec3) (angle : Angle) : Transform :=
  ⟨Mat4.mul (gramit.rotate axis angle) self.mat⟩

/-- Builder arbitrary transform (`transform.rs` lines 116-120). -/
def Transform.arbitrary (self : Transform) (transform : Mat4) : Transform :=
  ⟨Mat4.mul transform self.mat⟩

/-- Builder finish (`transform.rs` lines 124-126): the accumulated
matrix. -/
def Transform.finish (self : Transform) : Mat4 := self.mat

/-- One builder method call, with its parameters. -/
inductive Step where
  | translate (offset : Vec3)
  | scale (factor : Vec3)
  | shear_x (y_amount z_amount : ℝ)
  | shear_y (x_amount z_amount : ℝ)
  | shear_z (x_amount y_amount : ℝ)
  | rotate (axis : Vec3) (angle : Angle)
  | arbitrary (transform : Mat4)

/-- The elementary matrix of a builder method call (the leaf constructor
the method multiplies onto the accumulated matrix). -/
def Step.elemMat : Step → Mat4
  | .translate o => gramit.translate o
  | .scale f => gramit.scale f
  | .shear_x a b => gramit.shear_x a b
  | .shear_y a b => gramit.shear_y a b
  | .shear_z a b => gramit.shear_z a b
  | .rotate axis angle => gramit.rotate axis angle
  | .arbitrary m => m

/-- Apply one builder method call to a `Transform`. -/
def Step.apply (t : Transform) : Step → Transform
  | .translate o => t.translate o
  | .scale f => t.scale f
  | .shear_x a b => t.shear_x a b
  | .shear_y a b => t.shear_y a b
  | .shear_z a b => t.shear_z a b
  | .rotate axis angle => t.rotate axis angle
  | .arbitrary m => t.arbitrary m

/-- Whether a builder method call is one of the six elementary affine
constructors (everything except `arbitrary`). -/
def Step.isAffine : Step → Prop
  | .arbitrary _ => False
  | _ => True

/-- Run a finite sequence of builder method calls starting from
`Transform::new()`. -/
def applySteps (l : List Step) : Transform :=
  l.foldl Step.apply Transform.new

/-- The quaternion-to-matrix expansion of `rotate` as a function of the
quaternion components `w` and `(x, y, z)`; `rotate axis angle` is
`rotAux (cos (angle/2)) v.x v.y v.z` with `v = sin (angle/2) • axis.unit`. -/
def rotAux (w x y z : ℝ) : Mat4 :=
  Mat4.new
    ⟨1 - 2 * (y * y + z * z), 2 * (x * y + z * w), 2 * (x * z - y * w), 0⟩
    ⟨2 * (x * y - z * w), 1 - 2 * (x * x + z * z), 2 * (y * z + x * w), 0⟩
    ⟨2 * (x * z + y * w), 2 * (y * z - x * w), 1 - 2 * (x * x + y * y), 0⟩
    Vec4.wUnit

lemma rotate_eq_rotAux (axis : Vec3) (angle : Angle) :
    gramit.rotate axis angle =
      rotAux (Real.cos (angle / 2)) (Real.sin (angle / 2) * axis.unit.x)
        (Real.sin (angle / 2) * axis.unit.y) (Real.sin (angle / 2) * axis.unit.z) := rfl

lemma Step.apply_mat (t : Transform) (s : Step) :
    (Step.apply t s).mat = Mat4.mul s.elemMat t.mat := by
  cases s <;> rfl

/-- C1: every builder method multiplies its elementary matrix onto the left
of the accumulated matrix; in particular for any two builder calls `A` then
`B`, `Transform::new().A().B().finish()` is `B_matrix * A_matrix *
identity`. -/
theorem builder_composes_left (A B : Step) :
    (Step.apply (Step.apply Transform.new A) B).finish =
      Mat4.mul B.elemMat (Mat4.mul A.elemMat Mat4.identity) ∧
    ∀ (t : Transform) (s : Step),
      (Step.apply t s).mat = Mat4.mul s.elemMat t.mat := by
  constructor
  · show (Step.apply (Step.apply Transform.new A) B).mat = _
    rw [Step.apply_mat, Step.apply_mat]
    rfl
  · exact Step.apply_mat

/-- C4 counterexample: `shear_x(1, 0)` does not displace the sheared
axis's coordinate by `amount1 * y + amount2 * z`; at the point
`(0, 1, 0, 1)` the x coordinate stays `0` instead of becoming
`0 + 1 * 1 + 0 * 0 = 1`. -/
theorem shear_x_does_not_displace_x :
    ¬ ((Mat4.mulVec (gramit.shear_x 1 0) ⟨0, 1, 0, 1⟩).x = 0 + 1 * 1 + 0 * 0) := by
  norm_num [gramit.shear_x, Mat4.setElem, Mat4.set_col, Mat4.col, Vec4.setComp,
    Mat4.identity, Mat4.mulVec, Vec4.add, Vec4.smul]

/-- C4 (amended): each shear is the identity matrix with exactly the two
off-diagonal entries in the *column* of the sheared axis (the rows of the
other two axes) set to the shear amounts, so the transform displaces each
of the *other two* coordinates by the corresponding amount times the
sheared axis's coordinate, leaving the sheared axis's coordinate
unchanged. -/
theorem shear_matrix_shape (a1 a2 : ℝ) :
    gramit.shear_x a1 a2 = Mat4.new ⟨1, a1, a2, 0⟩ ⟨0, 1, 0, 0⟩ ⟨0, 0, 1, 0⟩ ⟨0, 0, 0, 1⟩ ∧
    gramit.shear_y a1 a2 = Mat4.new ⟨1, 0, 0, 0⟩ ⟨a1, 1, a2, 0⟩ ⟨0, 0, 1, 0⟩ ⟨0, 0, 0, 1⟩ ∧
    gramit.shear_z a1 a2 = Mat4.new ⟨1, 0, 0, 0⟩ ⟨0, 1, 0, 0⟩ ⟨a1, a2, 1, 0⟩ ⟨0, 0, 0, 1⟩ ∧
    ∀ p : Vec4,
      Mat4.mulVec (gramit.shear_x a1 a2) p = ⟨p.x, p.y + a1 * p.x, p.z + a2 * p.x, p.w⟩ ∧
      Mat4.mulVec (gramit.shear_y a1 a2) p = ⟨p.x + a1 * p.y, p.y, p.z + a2 * p.y, p.w⟩ ∧
      Mat4.mulVec (gramit.shear_z a1 a2) p = ⟨p.x + a1 * p.z, p.y + a2 * p.z, p.z, p.w⟩ := by
  refine ⟨?_, ?_, ?_, fun p => ⟨?_, ?_, ?_⟩⟩ <;>
  · ext <;>
      simp [gramit.shear_x, gramit.shear_y, gramit.shear_z, Mat4.setElem, Mat4.set_col,
        Mat4.col, Vec4.setComp, Mat4.identity, Mat4.mulVec, Vec4.add, Vec4.smul, Mat4.new] <;>
      ring

/-- C5: on homogeneous points with `w = 1`, `shear_x(a1, a2)` leaves x
unchanged and adds `x * a1` to y and `x * a2` to z; `shear_y` leaves y
unchanged and adds `y * a1` to x and `y * a2` to z; `shear_z` leaves z
unchanged and adds `z * a1` to x and `z * a2` to y. -/
theorem shear_point_action (a1 a2 : ℝ) (p : Vec3) :
    Mat4.mulVec (gramit.shear_x a1 a2) p.homogeneous =
      ⟨p.x, p.y + p.x * a1, p.z + p.x * a2, 1⟩ ∧
    Mat4.mulVec (gramit.shear_y a1 a2) p.homogeneous =
      ⟨p.x + p.y * a1, p.y, p.z + p.y * a2, 1⟩ ∧
    Mat4.mulVec (gramit.shear_z a1 a2) p.homogeneous =
      ⟨p.x + p.z * a1, p.y + p.z * a2, p.z, 1⟩ := by
  refine ⟨?_, ?_, ?_⟩ <;>
  · ext <;>
      simp [gramit.shear_x, gramit.shear_y, gramit.shear_z, Mat4.setElem, Mat4.set_col,
        Mat4.col, Vec4.setComp, Mat4.identity, Mat4.mulVec, Vec4.add, Vec4.smul,
        Vec3.homogeneous, Vec3.extend] <;>
      ring

lemma yAxis_unit : Vec3.yAxis.unit = ⟨0, 1, 0⟩ := by
  ext <;> norm_num [Vec3.yAxis, Vec3.unit, Vec3.dot, Vec3.smul, Real.sqrt_one]

lemma rot_y_180 : gramit.rotate Vec3.yAxis (Angle.from_degrees 180) =
    Mat4.new ⟨-1, 0, 0, 0⟩ ⟨0, 1, 0, 0⟩ ⟨0, 0, -1, 0⟩ ⟨0, 0, 0, 1⟩ := by
  rw [rotate_eq_rotAux]
  have h1 : Angle.from_degrees 180 / 2 = Real.pi / 2 := by
    rw [Angle.from_degrees]; ring
  rw [h1, Real.cos_pi_div_two, Real.sin_pi_div_two, yAxis_unit]
  ext <;> norm_num [rotAux, Mat4.new, Vec4.wUnit]

lemma chain_shear_rot_eval :
    Vec4.homogenize (Mat4.mulVec
      ((Transform.new.shear_x 1 0).rotate Vec3.yAxis (Angle.from_degrees 180)).finish
      (Vec3.homogeneous ⟨1, 0, 0⟩)) = ⟨-1, 1, 0⟩ := by
  have h : ((Transform.new.shear_x 1 0).rotate Vec3.yAxis (Angle.from_degrees 180)).finish
      = Mat4.mul (gramit.rotate Vec3.yAxis (Angle.from_degrees 180))
          (Mat4.mul (gramit.shear_x 1 0) Mat4.identity) := rfl
  rw [h, rot_y_180]
  ext <;>
    norm_num [gramit.shear_x, Mat4.setElem, Mat4.set_col, Mat4.col, Vec4.setComp,
      Mat4.identity, Mat4.mul, Mat4.mulVec, Vec4.add, Vec4.smul, Mat4.new,
      Vec3.homogeneous, Vec3.extend, Vec4.homogenize]

/-- C2 counterexample: the chained matrix
`Transform::new().shear_x(1, 0).rotate(y-axis, 180 degrees).finish()`
applied to the homogeneous point `(1, 0, 0, 1)` does not homogenize to
`(-1, -1, 0)`. -/
theorem shear_rotate_example_not_neg_y :
    Vec4.homogenize (Mat4.mulVec
      ((Transform.new.shear_x 1 0).rotate Vec3.yAxis (Angle.from_degrees 180)).finish
      (Vec3.homogeneous ⟨1, 0, 0⟩)) ≠ ⟨-1, -1, 0⟩ := by
  rw [chain_shear_rot_eval]
  intro h
  have := congrArg Vec3.y h
  norm_num at this

/-- C2 (amended): the chained matrix
`Transform::new().shear_x(1, 0).rotate(y-axis, 180 degrees).finish()`
applied to the homogeneous point `(1, 0, 0, 1)` homogenizes to
`(-1, 1, 0)`: the shear moves the point to `(1, 1, 0)` and the 180 degree
y-rotation negates x and z, leaving y untouched. -/
theorem shear_rotate_example_eval :
    Vec4.homogenize (Mat4.mulVec
      ((Transform.new.shear_x 1 0).rotate Vec3.yAxis (Angle.from_degrees 180)).finish
      (Vec3.homogeneous ⟨1, 0, 0⟩)) = ⟨-1, 1, 0⟩ := chain_shear_rot_eval

lemma Vec3.dot_self_pos (v : Vec3) (h : v ≠ ⟨0, 0, 0⟩) : 0 < Vec3.dot v v := by
  rcases v with ⟨x, y, z⟩
  simp only [Vec3.dot]
  by_contra hc
  push_neg at hc
  have hx : x * x = 0 :=
    le_antisymm (by nlinarith [mul_self_nonneg y, mul_self_nonneg z]) (mul_self_nonneg x)
  have hy : y * y = 0 :=
    le_antisymm (by nlinarith [mul_self_nonneg x, mul_self_nonneg z]) (mul_self_nonneg y)
  have hz : z * z = 0 :=
    le_antisymm (by nlinarith [mul_self_nonneg x, mul_self_nonneg y]) (mul_self_nonneg z)
  exact h (by rw [mul_self_eq_zero.mp hx, mul_self_eq_zero.mp hy, mul_self_eq_zero.mp hz])

lemma Vec3.unit_dot_self (v : Vec3) (h : v ≠ ⟨0, 0, 0⟩) :
    Vec3.dot v.unit v.unit = 1 := by
  have hpos := Vec3.dot_self_pos v h
  have hs : Real.sqrt (Vec3.dot v v) * Real.sqrt (Vec3.dot v v) = Vec3.dot v v :=
    Real.mul_self_sqrt hpos.le
  have hs0 : Real.sqrt (Vec3.dot v v) ≠ 0 :=
    ne_of_gt (Real.sqrt_pos.mpr hpos)
  rcases v with ⟨x, y, z⟩
  simp only [Vec3.dot, Vec3.unit, Vec3.smul] at *
  field_simp

lemma rotAux_mul_inverse (w x y z : ℝ) (h : w * w + x * x + y * y + z * z = 1) :
    Mat4.mul (rotAux w x y z) (rotAux w (-x) (-y) (-z)) = Mat4.identity := by
  ext <;> simp only [rotAux, Mat4.new, Mat4.mul, Mat4.mulVec, Vec4.add, Vec4.smul,
    Vec4.wUnit, Mat4.identity]
  · linear_combination (4 * (y * y + z * z)) * h
  · linear_combination (-(4 * x * y)) * h
  · linear_combination (-(4 * x * z)) * h
  · ring
  · linear_combination (-(4 * x * y)) * h
  · linear_combination (4 * (x * x + z * z)) * h
  · linear_combination (-(4 * y * z)) * h
  · ring
  · linear_combination (-(4 * x * z)) * h
  · linear_combination (-(4 * y * z)) * h
  · linear_combination (4 * (x * x + y * y)) * h
  · ring
  · ring
  · ring
  · ring
  · ring

/-- C6: for a non-zero axis, `rotate(axis, 0 degrees)` is the identity
matrix, and `rotate(axis, angle) * rotate(axis, -angle)` is the identity
matrix (exactly, over the reals). -/
theorem rotate_zero_and_inverse (axis : Vec3) (angle : Angle) (h : axis ≠ ⟨0, 0, 0⟩) :
    gramit.rotate axis (Angle.from_degrees 0) = Mat4.identity ∧
    Mat4.mul (gramit.rotate axis angle) (gramit.rotate axis (-angle)) = Mat4.identity := by
  constructor
  · rw [rotate_eq_rotAux]
    have h0 : Angle.from_degrees 0 / 2 = 0 := by rw [Angle.from_degrees]; ring
    rw [h0, Real.sin_zero, Real.cos_zero]
    ext <;> norm_num [rotAux, Mat4.new, Vec4.wUnit, Mat4.identity]
  · rw [rotate_eq_rotAux, rotate_eq_rotAux]
    have hneg : -angle / 2 = -(angle / 2) := by ring
    have hm : ∀ c : ℝ, -Real.sin (angle / 2) * c = -(Real.sin (angle / 2) * c) :=
      fun c => by ring
    rw [hneg, Real.cos_neg, Real.sin_neg, hm, hm, hm]
    apply rotAux_mul_inverse
    have hn := Vec3.unit_dot_self axis h
    simp only [Vec3.dot] at hn
    have hsc := Real.sin_sq_add_cos_sq (angle / 2)
    linear_combination (Real.sin (angle / 2) * Real.sin (angle / 2)) * hn + hsc

/-- C6 witness: the theorem instantiated at the concrete non-zero axis
`(0, 0, 1)` and angle `1`. -/
theorem rotate_zero_and_inverse_witness :
    ((⟨0, 0, 1⟩ : Vec3) ≠ ⟨0, 0, 0⟩) ∧
    (gramit.rotate ⟨0, 0, 1⟩ (Angle.from_degrees 0) = Mat4.identity ∧
     Mat4.mul (gramit.rotate ⟨0, 0, 1⟩ 1) (gramit.rotate ⟨0, 0, 1⟩ (-1)) = Mat4.identity) := by
  have h : (⟨0, 0, 1⟩ : Vec3) ≠ ⟨0, 0, 0⟩ := by
    intro hc
    have hz := congrArg Vec3.z hc
    norm_num at hz
  exact ⟨h, rotate_zero_and_inverse ⟨0, 0, 1⟩ 1 h⟩

lemma elem_affine : ∀ s : Step, s.isAffine → (Step.elemMat s).row 3 = (⟨0, 0, 0, 1⟩ : Vec4) := by
  intro s h
  cases s
  case arbitrary m => simp [Step.isAffine] at h
  all_goals
    ext <;>
      simp [Step.elemMat, gramit.translate, gramit.scale, gramit.shear_x, gramit.shear_y,
        gramit.shear_z, gramit.rotate, Mat4.new, Vec4.wUnit, Mat4.setElem, Mat4.set_col,
        Mat4.col, Vec4.setComp, Mat4.identity, Mat4.row, Vec4.comp, Vec3.extend]

lemma mulVec_w_eq (A : Mat4) (hA : A.row 3 = (⟨0, 0, 0, 1⟩ : Vec4)) (v : Vec4) :
    (A.mulVec v).w = v.w := by
  have h0 : A.c0.w = 0 := by have := congrArg Vec4.x hA; simpa [Mat4.row, Vec4.comp] using this
  have h1 : A.c1.w = 0 := by have := congrArg Vec4.y hA; simpa [Mat4.row, Vec4.comp] using this
  have h2 : A.c2.w = 0 := by have := congrArg Vec4.z hA; simpa [Mat4.row, Vec4.comp] using this
  have h3 : A.c3.w = 1 := by have := congrArg Vec4.w hA; simpa [Mat4.row, Vec4.comp] using this
  simp [Mat4.mulVec, Vec4.add, Vec4.smul, h0, h1, h2, h3]

lemma mul_affine (A B : Mat4) (hA : A.row 3 = (⟨0, 0, 0, 1⟩ : Vec4))
    (hB : B.row 3 = (⟨0, 0, 0, 1⟩ : Vec4)) :
    (Mat4.mul A B).row 3 = (⟨0, 0, 0, 1⟩ : Vec4) := by
  have hb0 : B.c0.w = 0 := by have := congrArg Vec4.x hB; simpa [Mat4.row, Vec4.comp] using this
  have hb1 : B.c1.w = 0 := by have := congrArg Vec4.y hB; simpa [Mat4.row, Vec4.comp] using this
  have hb2 : B.c2.w = 0 := by have := congrArg Vec4.z hB; simpa [Mat4.row, Vec4.comp] using this
  have hb3 : B.c3.w = 1 := by have := congrArg Vec4.w hB; simpa [Mat4.row, Vec4.comp] using this
  ext <;> simp [Mat4.mul, Mat4.row, Vec4.comp, mulVec_w_eq A hA, hb0, hb1, hb2, hb3]

lemma foldl_affine : ∀ (l : List Step) (t : Transform), (∀ s ∈ l, s.isAffine) →
    t.mat.row 3 = (⟨0, 0, 0, 1⟩ : Vec4) →
    (l.foldl Step.apply t).mat.row 3 = (⟨0, 0, 0, 1⟩ : Vec4) := by
  intro l
  induction l with
  | nil => intro t _ ht; simpa using ht
  | cons s rest ih =>
      intro t hall ht
      simp only [List.foldl_cons]
      apply ih
      · intro s' hs'
        exact hall s' (List.mem_cons_of_mem _ hs')
      · rw [Step.apply_mat]
        exact mul_affine _ _ (elem_affine s (hall s (List.mem_cons_self _ _))) ht

/-- C10: each elementary builder step (translate, scale, shear_x/y/z,
rotate) has elementary matrix with bottom row `(0, 0, 0, 1)`, and any
finite sequence of such steps applied from `Transform::new()` accumulates
a matrix with bottom row `(0, 0, 0, 1)`, which therefore leaves the w
component of any homogeneous vector unchanged. -/
theorem affine_bottom_row :
    (∀ s : Step, s.isAffine → (Step.elemMat s).row 3 = (⟨0, 0, 0, 1⟩ : Vec4)) ∧
    ∀ l : List Step, (∀ s ∈ l, s.isAffine) →
      ((applySteps l).finish.row 3 = (⟨0, 0, 0, 1⟩ : Vec4) ∧
       ∀ v : Vec4, (Mat4.mulVec ((applySteps l).finish) v).w = v.w) := by
  refine ⟨elem_affine, fun l h => ?_⟩
  have hrow : (applySteps l).finish.row 3 = (⟨0, 0, 0, 1⟩ : Vec4) := by
    show (l.foldl Step.apply Transform.new).mat.row 3 = _
    apply foldl_affine l Transform.new h
    ext <;> simp [Transform.new, Mat4.identity, Mat4.row, Vec4.comp]
  exact ⟨hrow, fun v => mulVec_w_eq _ hrow v⟩

/-- C10 witness: the theorem instantiated at the two-step sequence
`translate((1,2,3))` then `rotate((0,0,1), 1)`. -/
theorem affine_bottom_row_witness :
    (∀ s ∈ [Step.translate ⟨1, 2, 3⟩, Step.rotate ⟨0, 0, 1⟩ 1], s.isAffine) ∧
    ((applySteps [Step.translate ⟨1, 2, 3⟩, Step.rotate ⟨0, 0, 1⟩ 1]).finish.row 3 =
        (⟨0, 0, 0, 1⟩ : Vec4) ∧
     ∀ v : Vec4,
       (Mat4.mulVec ((applySteps [Step.translate ⟨1, 2, 3⟩,
          Step.rotate ⟨0, 0, 1⟩ 1]).finish) v).w = v.w) := by
  have h : ∀ s ∈ [Step.translate ⟨1, 2, 3⟩, Step.rotate ⟨0, 0, 1⟩ 1], s.isAffine := by
    simp [List.forall_mem_cons, Step.isAffine]
  exact ⟨h, affine_bottom_row.2 _ h⟩

lemma ortho_eq (l r b t n f : ℝ) :
    gramit.ortho l r b t n f = Mat4.new
      ⟨2 / (r - l), 0, 0, 0⟩
      ⟨0, 2 / (t - b), 0, 0⟩
      ⟨0, 0, -2 / (f - n), 0⟩
      ⟨-(r + l) / (r - l), -(t + b) / (t - b), -(f + n) / (f - n), 1⟩ := rfl

lemma frustum_eq (l r b t n f : ℝ) :
    gramit.frustum l r b t n f = Mat4.new
      ⟨2 * n / (r - l), 0, 0, 0⟩
      ⟨0, 2 * n / (t - b), 0, 0⟩
      ⟨(r + l) / (r - l), (t + b) / (t - b), -(f + n) / (f - n), -1⟩
      ⟨0, 0, -(2 * f * n) / (f - n), 0⟩ := rfl

lemma perspective_eq (fovy : Angle) (a n f : ℝ) :
    gramit.perspective fovy a n f = Mat4.new
      ⟨1 / (a * Real.tan (fovy / 2)), 0, 0, 0⟩
      ⟨0, 1 / Real.tan (fovy / 2), 0, 0⟩
      ⟨0, 0, -(f + n) / (f - n), -1⟩
      ⟨0, 0, -(2 * f * n) / (f - n), 0⟩ := rfl

/-- C7: for `right != left`, `top != bottom`, `far != near`, the matrix
`ortho(left, right, bottom, top, near, far)` maps each of the eight
corners of the box `[left,right] x [bottom,top] x [-near,-far]` (as
homogeneous points with w = 1) exactly onto the corresponding corner of
the cube `[-1,1]^3`, with `(left, bottom, -near)` going to `(-1,-1,-1)`
and `(right, top, -far)` going to `(1, 1, 1)`. -/
theorem ortho_maps_corners (l r b t n f : ℝ) (hrl : r ≠ l) (htb : t ≠ b) (hfn : f ≠ n) :
    Mat4.mulVec (gramit.ortho l r b t n f) ⟨l, b, -n, 1⟩ = ⟨-1, -1, -1, 1⟩ ∧
    Mat4.mulVec (gramit.ortho l r b t n f) ⟨r, b, -n, 1⟩ = ⟨1, -1, -1, 1⟩ ∧
    Mat4.mulVec (gramit.ortho l r b t n f) ⟨l, t, -n, 1⟩ = ⟨-1, 1, -1, 1⟩ ∧
    Mat4.mulVec (gramit.ortho l r b t n f) ⟨r, t, -n, 1⟩ = ⟨1, 1, -1, 1⟩ ∧
    Mat4.mulVec (gramit.ortho l r b t n f) ⟨l, b, -f, 1⟩ = ⟨-1, -1, 1, 1⟩ ∧
    Mat4.mulVec (gramit.ortho l r b t n f) ⟨r, b, -f, 1⟩ = ⟨1, -1, 1, 1⟩ ∧
    Mat4.mulVec (gramit.ortho l r b t n f) ⟨l, t, -f, 1⟩ = ⟨-1, 1, 1, 1⟩ ∧
    Mat4.mulVec (gramit.ortho l r b t n f) ⟨r, t, -f, 1⟩ = ⟨1, 1, 1, 1⟩ := by
  have h1 : r - l ≠ 0 := sub_ne_zero.mpr hrl
  have h2 : t - b ≠ 0 := sub_ne_zero.mpr htb
  have h3 : f - n ≠ 0 := sub_ne_zero.mpr hfn
  rw [ortho_eq]
  refine ⟨?_, ?_, ?_, ?_, ?_, ?_, ?_, ?_⟩ <;>
  · ext <;>
      simp only [Mat4.new, Mat4.mulVec, Vec4.add, Vec4.smul] <;>
      field_simp <;>
      ring

/-- C7 witness: the theorem instantiated at the concrete box
`[0,1] x [0,1] x [-1,-2]`. -/
theorem ortho_maps_corners_witness :
    ((1:ℝ) ≠ 0 ∧ (1:ℝ) ≠ 0 ∧ (2:ℝ) ≠ 1) ∧
    (Mat4.mulVec (gramit.ortho 0 1 0 1 1 2) ⟨0, 0, -1, 1⟩ = ⟨-1, -1, -1, 1⟩ ∧
     Mat4.mulVec (gramit.ortho 0 1 0 1 1 2) ⟨1, 0, -1, 1⟩ = ⟨1, -1, -1, 1⟩ ∧
     Mat4.mulVec (gramit.ortho 0 1 0 1 1 2) ⟨0, 1, -1, 1⟩ = ⟨-1, 1, -1, 1⟩ ∧
     Mat4.mulVec (gramit.ortho 0 1 0 1 1 2) ⟨1, 1, -1, 1⟩ = ⟨1, 1, -1, 1⟩ ∧
     Mat4.mulVec (gramit.ortho 0 1 0 1 1 2) ⟨0, 0, -2, 1⟩ = ⟨-1, -1, 1, 1⟩ ∧
     Mat4.mulVec (gramit.ortho 0 1 0 1 1 2) ⟨1, 0, -2, 1⟩ = ⟨1, -1, 1, 1⟩ ∧
     Mat4.mulVec (gramit.ortho 0 1 0 1 1 2) ⟨0, 1, -2, 1⟩ = ⟨-1, 1, 1, 1⟩ ∧
     Mat4.mulVec (gramit.ortho 0 1 0 1 1 2) ⟨1, 1, -2, 1⟩ = ⟨1, 1, 1, 1⟩) :=
  ⟨⟨by norm_num, by norm_num, by norm_num⟩,
   ortho_maps_corners 0 1 0 1 1 2 (by norm_num) (by norm_num) (by norm_num)⟩

/-- C8 counterexample: with `far = 0` (allowed by the claim's hypotheses
`far != near`, `near != 0`, `tan(fovy/2) != 0`), the point
`(0, 0, -far, 1)` is sent to `(0, 0, 0, 0)`, and the z coordinate after
dividing by w is `0`, not `1`. -/
theorem perspective_far_zero_break :
    ((0:ℝ) ≠ 1 ∧ (1:ℝ) ≠ 0 ∧ Real.tan (Real.pi / 2 / 2) ≠ 0) ∧
    ¬ ((Mat4.mulVec (gramit.perspective (Real.pi / 2) 1 1 0) ⟨0, 0, -0, 1⟩).z /
        (Mat4.mulVec (gramit.perspective (Real.pi / 2) 1 1 0) ⟨0, 0, -0, 1⟩).w = 1) := by
  have htan : Real.tan (Real.pi / 2 / 2) = 1 := by
    rw [show Real.pi / 2 / 2 = Real.pi / 4 by ring, Real.tan_pi_div_four]
  refine ⟨⟨by norm_num, by norm_num, by rw [htan]; norm_num⟩, ?_⟩
  rw [perspective_eq]
  simp only [Mat4.new, Mat4.mulVec, Vec4.add, Vec4.smul]
  norm_num

/-- C8 (amended): for `far != near`, `near != 0`, `tan(fovy/2) != 0` and
additionally `far != 0`, `perspective(fovy, aspect, near, far)` maps
`(0, 0, -near, 1)` to a point whose z coordinate after dividing by w is
exactly `-1`, and `(0, 0, -far, 1)` to one whose z coordinate after
dividing by w is exactly `1`. -/
theorem perspective_near_far_depth (fovy : Angle) (a n f : ℝ) (hfn : f ≠ n) (hn : n ≠ 0)
    (ht : Real.tan (fovy / 2) ≠ 0) (hf : f ≠ 0) :
    (Mat4.mulVec (gramit.perspective fovy a n f) ⟨0, 0, -n, 1⟩).z /
      (Mat4.mulVec (gramit.perspective fovy a n f) ⟨0, 0, -n, 1⟩).w = -1 ∧
    (Mat4.mulVec (gramit.perspective fovy a n f) ⟨0, 0, -f, 1⟩).z /
      (Mat4.mulVec (gramit.perspective fovy a n f) ⟨0, 0, -f, 1⟩).w = 1 := by
  have h3 : f - n ≠ 0 := sub_ne_zero.mpr hfn
  rw [perspective_eq]
  constructor <;>
  · simp only [Mat4.new, Mat4.mulVec, Vec4.add, Vec4.smul]
    field_simp
    ring

/-- C8 witness: the amended theorem instantiated at `fovy = pi/2`,
`aspect = 1`, `near = 1`, `far = 2`. -/
theorem perspective_near_far_depth_witness :
    ((2:ℝ) ≠ 1 ∧ (1:ℝ) ≠ 0 ∧ Real.tan (Real.pi / 2 / 2) ≠ 0 ∧ (2:ℝ) ≠ 0) ∧
    ((Mat4.mulVec (gramit.perspective (Real.pi / 2) 1 1 2) ⟨0, 0, -1, 1⟩).z /
       (Mat4.mulVec (gramit.perspective (Real.pi / 2) 1 1 2) ⟨0, 0, -1, 1⟩).w = -1 ∧
     (Mat4.mulVec (gramit.perspective (Real.pi / 2) 1 1 2) ⟨0, 0, -2, 1⟩).z /
       (Mat4.mulVec (gramit.perspective (Real.pi / 2) 1 1 2) ⟨0, 0, -2, 1⟩).w = 1) := by
  have htan : Real.tan (Real.pi / 2 / 2) ≠ 0 := by
    rw [show Real.pi / 2 / 2 = Real.pi / 4 by ring, Real.tan_pi_div_four]
    norm_num
  exact ⟨⟨by norm_num, by norm_num, htan, by norm_num⟩,
    perspective_near_far_depth (Real.pi / 2) 1 1 2 (by norm_num) (by norm_num) htan
      (by norm_num)⟩

/-- C9: `perspective(fovy, aspect_xy, near, far)` equals
`frustum(-r, r, -t, t, near, far)` with `t = near * tan(fovy/2)` and
`r = t * aspect_xy`, under the hypotheses `near != 0`, `far != near`,
`tan(fovy/2) != 0`. -/
theorem perspective_is_symmetric_frustum (fovy : Angle) (a n f : ℝ) (hn : n ≠ 0)
    (hfn : f ≠ n) (ht : Real.tan (fovy / 2) ≠ 0) :
    gramit.perspective fovy a n f =
      gramit.frustum (-(n * Real.tan (fovy / 2) * a)) (n * Real.tan (fovy / 2) * a)
        (-(n * Real.tan (fovy / 2))) (n * Real.tan (fovy / 2)) n f := by
  rw [perspective_eq, frustum_eq]
  have ha2 : n * Real.tan (fovy / 2) * a - -(n * Real.tan (fovy / 2) * a)
      = 2 * (n * Real.tan (fovy / 2) * a) := by ring
  have hb2 : n * Real.tan (fovy / 2) - -(n * Real.tan (fovy / 2))
      = 2 * (n * Real.tan (fovy / 2)) := by ring
  have htn : (2:ℝ) * (n * Real.tan (fovy / 2)) ≠ 0 :=
    mul_ne_zero two_ne_zero (mul_ne_zero hn ht)
  ext <;> simp only [Mat4.new, ha2, hb2] <;> try simp
  · rcases eq_or_ne a 0 with ha | ha
    · simp [ha]
    · field_simp
      ring
  · field_simp
    ring

/-- C9 witness: the theorem instantiated at `fovy = pi/2`, `aspect = 2`,
`near = 1`, `far = 3`. -/
theorem perspective_is_symmetric_frustum_witness :
    ((1:ℝ) ≠ 0 ∧ (3:ℝ) ≠ 1 ∧ Real.tan (Real.pi / 2 / 2) ≠ 0) ∧
    gramit.perspective (Real.pi / 2) 2 1 3 =
      gramit.frustum (-(1 * Real.tan (Real.pi / 2 / 2) * 2))
        (1 * Real.tan (Real.pi / 2 / 2) * 2)
        (-(1 * Real.tan (Real.pi / 2 / 2))) (1 * Real.tan (Real.pi / 2 / 2)) 1 3 := by
  have htan : Real.tan (Real.pi / 2 / 2) ≠ 0 := by
    rw [show Real.pi / 2 / 2 = Real.pi / 4 by ring, Real.tan_pi_div_four]
    norm_num
  exact ⟨⟨by norm_num, by norm_num, htan⟩,
    perspective_is_symmetric_frustum (Real.pi / 2) 2 1 3 (by norm_num) (by norm_num) htan⟩

lemma Vec3.dot_comm (a b : Vec3) : Vec3.dot a b = Vec3.dot b a := by
  simp only [Vec3.dot]; ring

lemma Vec3.dot_cross_left (a b : Vec3) : Vec3.dot (Vec3.cross a b) a = 0 := by
  simp only [Vec3.dot, Vec3.cross]; ring

lemma Vec3.dot_cross_right (a b : Vec3) : Vec3.dot (Vec3.cross a b) b = 0 := by
  simp only [Vec3.dot, Vec3.cross]; ring

lemma Vec3.dot_neg_right (a b : Vec3) : Vec3.dot a (Vec3.neg b) = -Vec3.dot a b := by
  simp only [Vec3.dot, Vec3.neg]; ring

lemma Vec3.dot_neg_neg (a b : Vec3) : Vec3.dot (Vec3.neg a) (Vec3.neg b) = Vec3.dot a b := by
  simp only [Vec3.dot, Vec3.neg]; ring

lemma Vec3.cross_lagrange (a b : Vec3) :
    Vec3.dot (Vec3.cross a b) (Vec3.cross a b) =
      Vec3.dot a a * Vec3.dot b b - Vec3.dot a b * Vec3.dot a b := by
  simp only [Vec3.dot, Vec3.cross]; ring

lemma Vec3.dot_unit_unit (u v : Vec3) (h : Vec3.dot u v = 0) :
    Vec3.dot u.unit v.unit = 0 := by
  simp only [Vec3.unit, Vec3.smul, Vec3.dot] at h ⊢
  linear_combination (1 / Real.sqrt (u.x * u.x + u.y * u.y + u.z * u.z)) *
    (1 / Real.sqrt (v.x * v.x + v.y * v.y + v.z * v.z)) * h

lemma Vec3.sub_ne_zero_of_ne (a b : Vec3) (h : a ≠ b) : Vec3.sub a b ≠ ⟨0, 0, 0⟩ := by
  intro hc
  apply h
  have hx := congrArg Vec3.x hc
  have hy := congrArg Vec3.y hc
  have hz := congrArg Vec3.z hc
  simp only [Vec3.sub] at hx hy hz
  ext <;> linarith

lemma look_at_row0 (eye center up : Vec3) :
    ((gramit.look_at eye center up).row 0).xyz =
      Vec3.cross (Vec3.sub center eye).unit up.unit := rfl

lemma look_at_row1 (eye center up : Vec3) :
    ((gramit.look_at eye center up).row 1).xyz =
      Vec3.cross (Vec3.cross (Vec3.sub center eye).unit up.unit)
        (Vec3.sub center eye).unit := rfl

lemma look_at_row2 (eye center up : Vec3) :
    ((gramit.look_at eye center up).row 2).xyz =
      Vec3.neg (Vec3.sub center eye).unit := rfl

/-- C3 counterexample: at `eye = (0,0,0)`, `center = (1,0,0)`,
`up = (1,1,0)` (with `up` not parallel to `center - eye`, witnessed by a
non-zero cross product), the first basis row written by `look_at` is not
of unit length: its squared norm is `1/2`. -/
theorem look_at_row_not_unit :
    Vec3.cross (Vec3.sub ⟨1, 0, 0⟩ ⟨0, 0, 0⟩) ⟨1, 1, 0⟩ ≠ ⟨0, 0, 0⟩ ∧
    Vec3.dot ((gramit.look_at ⟨0, 0, 0⟩ ⟨1, 0, 0⟩ ⟨1, 1, 0⟩).row 0).xyz
      ((gramit.look_at ⟨0, 0, 0⟩ ⟨1, 0, 0⟩ ⟨1, 1, 0⟩).row 0).xyz ≠ 1 := by
  constructor
  · intro hc
    have hz := congrArg Vec3.z hc
    norm_num [Vec3.cross, Vec3.sub] at hz
  · rw [look_at_row0]
    have hsub : Vec3.sub ⟨1, 0, 0⟩ ⟨0, 0, 0⟩ = (⟨1, 0, 0⟩ : Vec3) := by
      ext <;> norm_num [Vec3.sub]
    rw [hsub]
    have hux : (⟨1, 0, 0⟩ : Vec3).unit = ⟨1, 0, 0⟩ := by
      ext <;> norm_num [Vec3.unit, Vec3.dot, Vec3.smul, Real.sqrt_one]
    rw [hux]
    have hq : ((Real.sqrt 2)⁻¹) ^ 2 = (2:ℝ)⁻¹ := by
      rw [inv_pow, Real.sq_sqrt]
      norm_num
    intro hc
    simp only [Vec3.unit, Vec3.dot, Vec3.smul, Vec3.cross] at hc
    norm_num at hc
    nlinarith [hq, hc]

/-- C3 (amended): the three basis vectors that `look_at(eye, center, up)`
writes as its first three rows are pairwise orthogonal, and the third
(`-forward`) is of unit length; the first two (`right` and the
re-orthogonalized camera-up) are additionally of unit length whenever the
input `up` is orthogonal to `center - eye`, but not in general. -/
theorem look_at_basis_orthogonal (eye center up : Vec3) (h1 : center ≠ eye)
    (h2 : up ≠ ⟨0, 0, 0⟩) :
    Vec3.dot ((gramit.look_at eye center up).row 0).xyz
      ((gramit.look_at eye center up).row 1).xyz = 0 ∧
    Vec3.dot ((gramit.look_at eye center up).row 0).xyz
      ((gramit.look_at eye center up).row 2).xyz = 0 ∧
    Vec3.dot ((gramit.look_at eye center up).row 1).xyz
      ((gramit.look_at eye center up).row 2).xyz = 0 ∧
    Vec3.dot ((gramit.look_at eye center up).row 2).xyz
      ((gramit.look_at eye center up).row 2).xyz = 1 ∧
    (Vec3.dot up (Vec3.sub center eye) = 0 →
      Vec3.dot ((gramit.look_at eye center up).row 0).xyz
        ((gramit.look_at eye center up).row 0).xyz = 1 ∧
      Vec3.dot ((gramit.look_at eye center up).row 1).xyz
        ((gramit.look_at eye center up).row 1).xyz = 1) := by
  rw [look_at_row0, look_at_row1, look_at_row2]
  have hsub := Vec3.sub_ne_zero_of_ne center eye h1
  have hf : Vec3.dot (Vec3.sub center eye).unit (Vec3.sub center eye).unit = 1 :=
    Vec3.unit_dot_self _ hsub
  have hu : Vec3.dot up.unit up.unit = 1 := Vec3.unit_dot_self _ h2
  refine ⟨?_, ?_, ?_, ?_, ?_⟩
  · rw [Vec3.dot_comm]
    exact Vec3.dot_cross_left _ _
  · rw [Vec3.dot_neg_right, Vec3.dot_cross_left, neg_zero]
  · rw [Vec3.dot_neg_right, Vec3.dot_cross_right, neg_zero]
  · rw [Vec3.dot_neg_neg]
    exact hf
  · intro hperp
    have hpf : Vec3.dot (Vec3.sub center eye).unit up.unit = 0 :=
      Vec3.dot_unit_unit _ _ (by rw [Vec3.dot_comm]; exact hperp)
    constructor
    · rw [Vec3.cross_lagrange, hf, hu, hpf]
      norm_num
    · rw [Vec3.cross_lagrange, Vec3.cross_lagrange, hf, hu, hpf, Vec3.dot_cross_left]
      norm_num

/-- C3 witness: the amended theorem instantiated at `eye = (0,0,0)`,
`center = (1,0,0)`, `up = (0,0,1)`. -/
theorem look_at_basis_orthogonal_witness :
    ((⟨1, 0, 0⟩ : Vec3) ≠ ⟨0, 0, 0⟩ ∧ (⟨0, 0, 1⟩ : Vec3) ≠ ⟨0, 0, 0⟩) ∧
    (Vec3.dot ((gramit.look_at ⟨0, 0, 0⟩ ⟨1, 0, 0⟩ ⟨0, 0, 1⟩).row 0).xyz
      ((gramit.look_at ⟨0, 0, 0⟩ ⟨1, 0, 0⟩ ⟨0, 0, 1⟩).row 1).xyz = 0 ∧
    Vec3.dot ((gramit.look_at ⟨0, 0, 0⟩ ⟨1, 0, 0⟩ ⟨0, 0, 1⟩).row 0).xyz
      ((gramit.look_at ⟨0, 0, 0⟩ ⟨1, 0, 0⟩ ⟨0, 0, 1⟩).row 2).xyz = 0 ∧
    Vec3.dot ((gramit.look_at ⟨0, 0, 0⟩ ⟨1, 0, 0⟩ ⟨0, 0, 1⟩).row 1).xyz
      ((gramit.look_at ⟨0, 0, 0⟩ ⟨1, 0, 0⟩ ⟨0, 0, 1⟩).row 2).xyz = 0 ∧
    Vec3.dot ((gramit.look_at ⟨0, 0, 0⟩ ⟨1, 0, 0⟩ ⟨0, 0, 1⟩).row 2).xyz
      ((gramit.look_at ⟨0, 0, 0⟩ ⟨1, 0, 0⟩ ⟨0, 0, 1⟩).row 2).xyz = 1 ∧
    (Vec3.dot ⟨0, 0, 1⟩ (Vec3.sub ⟨1, 0, 0⟩ ⟨0, 0, 0⟩) = 0 →
      Vec3.dot ((gramit.look_at ⟨0, 0, 0⟩ ⟨1, 0, 0⟩ ⟨0, 0, 1⟩).row 0).xyz
        ((gramit.look_at ⟨0, 0, 0⟩ ⟨1, 0, 0⟩ ⟨0, 0, 1⟩).row 0).xyz = 1 ∧
      Vec3.dot ((gramit.look_at ⟨0, 0, 0⟩ ⟨1, 0, 0⟩ ⟨0, 0, 1⟩).row 1).xyz
        ((gramit.look_at ⟨0, 0, 0⟩ ⟨1, 0, 0⟩ ⟨0, 0, 1⟩).row 1).xyz = 1)) := by
  have hc : (⟨1, 0, 0⟩ : Vec3) ≠ ⟨0, 0, 0⟩ := by
    intro h
    have := congrArg Vec3.x h
    norm_num at this
  have hup : (⟨0, 0, 1⟩ : Vec3) ≠ ⟨0, 0, 0⟩ := by
    intro h
    have := congrArg Vec3.z h
    norm_num at this
  exact ⟨⟨hc, hup⟩, look_at_basis_orthogonal ⟨0, 0, 0⟩ ⟨1, 0, 0⟩ ⟨0, 0, 1⟩ hc hup⟩
